import Mathlib

/-!
Verification development for the mdb-debugger repository: a shallow
embedding, in Lean 4, of the MDBRuntime session driver (runtime.ts as found
in the extension bundle) and of the ELF reader (src/utils/elf.ts), together
with theorems settling the frozen specification claims.

Conventions of the embedding:
- JavaScript strings are modelled as `List Char` (ASCII payloads only).
- JavaScript numbers holding byte/offset/id values are modelled as `Nat`.
- A JavaScript `Map` keyed by strings is modelled as an association list in
  insertion order.
- Fallible operations (a `DataView` read past the end of the buffer throws
  a RangeError in JavaScript) are modelled with `Option` / explicit outcome
  constructors (`throws`); a loop whose bound is `Infinity` is modelled with
  a `diverges` outcome.
- The missing `utils/path` module (normalizePath, and node's path.basename)
  is not part of the sources; the runtime model is parameterised over those
  two functions, so every theorem holds for any choice of them.
-/

/-! ## Basic ASCII string helpers (JS semantics) -/

/-- JS `String.prototype.toLowerCase` restricted to ASCII letters. -/
def jsToLower (c : Char) : Char :=
  if 'A' ≤ c ∧ c ≤ 'Z' then Char.ofNat (c.toNat + 32) else c

/-- Lowercase every character of an ASCII string. -/
def jsToLowerStr (s : List Char) : List Char := s.map jsToLower

/-- Does the list start with the given pattern? -/
def beginsWith : List Char → List Char → Bool
  | _, [] => true
  | [], _ :: _ => false
  | c :: cs, p :: ps => c == p && beginsWith cs ps

/-- JS `String.prototype.includes`: does the pattern occur as a contiguous
substring of the haystack? -/
def containsSub : List Char → List Char → Bool
  | [], p => beginsWith [] p
  | l@(_ :: rest), p => beginsWith l p || containsSub rest p

/-- Decimal digit test, as in the regex class `\d`. -/
def isDigitCh (c : Char) : Bool := '0' ≤ c && c ≤ '9'

/-- Numeric value of a list of decimal digits (most significant first). -/
def digitsToNat (l : List Char) : Nat :=
  l.foldl (fun acc c => acc * 10 + (c.toNat - '0'.toNat)) 0

/-- JS `parseInt(s, 10)` on the strings produced by the regexes of the
runtime: reads a maximal leading run of decimal digits; `none` models `NaN`
(no digit found). Sign/whitespace handling is omitted because every call
site passes a capture of `\d+`. -/
def parseInt10 (s : List Char) : Option Nat :=
  let ds := s.takeWhile isDigitCh
  if ds.isEmpty then none else some (digitsToNat ds)

/-- Hex digit test. -/
def isHexDigitCh (c : Char) : Bool :=
  ('0' ≤ c && c ≤ '9') || ('a' ≤ c && c ≤ 'f') || ('A' ≤ c && c ≤ 'F')

/-- Numeric value of one hex digit. -/
def hexVal (c : Char) : Nat :=
  if '0' ≤ c && c ≤ '9' then c.toNat - '0'.toNat
  else if 'a' ≤ c && c ≤ 'f' then c.toNat - 'a'.toNat + 10
  else c.toNat - 'A'.toNat + 10

/-- JS `parseInt(s, 16)` (the body of `convertHexToNumber` from
src/utils/hex.ts) on the strings produced by the runtime's regexes: an
optional `0x`/`0X` prefix, then a maximal run of hex digits; `none` models
`NaN`. -/
def convertHexToNumber (s : List Char) : Option Nat :=
  let s := if beginsWith s ['0', 'x'] || beginsWith s ['0', 'X'] then s.drop 2 else s
  let ds := s.takeWhile isHexDigitCh
  if ds.isEmpty then none
  else some (ds.foldl (fun acc c => acc * 16 + hexVal c) 0)

/-- Render a natural number in decimal, used for command texts such as
`Delete 3`. -/
def natStr (n : Nat) : List Char := (toString n).toList

/-! ## Breakpoint registry and command queue model (runtime.ts)

The MDBRuntime pieces that the breakpoint claims touch: `_breakpointId`
(initialised to 1), `_breakPoints` (a Map from normalised file path to an
array of breakpoints), and the serialized command queue to which
`addCommandToQueue` appends.  Queued commands are recorded as their text
plus the pattern the queue will wait for. -/

/-- A registered breakpoint: `{id, line, verified}`. -/
structure MDBBreakpoint where
  id : Nat
  line : Nat
  verified : Bool
deriving DecidableEq, Repr

/-- What a queued command waits for: the ready prompt (`null` pattern, the
`executeRawCommand` path), a literal string, or the breakpoint-confirmation
regex for a given file name. -/
inductive CmdExpect where
  | prompt
  | literal (s : List Char)
  | breakConfirm (fileName : List Char)
deriving DecidableEq, Repr

/-- One entry pushed onto `_commandQueue`. -/
structure QCmd where
  text : List Char
  expect : CmdExpect
deriving DecidableEq, Repr

/-- The path helpers imported by runtime.ts but absent from the sources
(`normalizePath` from ./utils/path, and node's `path.basename`).  Every
theorem below is proved for an arbitrary choice of these. -/
structure PathFns where
  normalize : String → String
  basename : String → String

/-- The part of MDBRuntime state that the breakpoint claims exercise. -/
structure RTState where
  breakpointId : Nat
  breakPoints : List (String × List MDBBreakpoint)
  queued : List QCmd
deriving Repr

/-- Fresh MDBRuntime state: `_breakpointId = 1`, empty map, empty queue. -/
def initialRTState : RTState := ⟨1, [], []⟩

/-- Lookup in an insertion-ordered string-keyed map. -/
def assocLookup (m : List (String × List MDBBreakpoint)) (k : String) :
    Option (List MDBBreakpoint) :=
  match m with
  | [] => none
  | (k', v) :: rest => if k' = k then some v else assocLookup rest k

/-- `Map.set`-style update appending `bp` to the array stored at `k`
(creating the entry, as `setBreakPoint` does, when absent). -/
def assocAppend (m : List (String × List MDBBreakpoint)) (k : String)
    (bp : MDBBreakpoint) : List (String × List MDBBreakpoint) :=
  match m with
  | [] => [(k, [bp])]
  | (k', v) :: rest =>
      if k' = k then (k', v ++ [bp]) :: rest
      else (k', v) :: assocAppend rest k bp

/-- Command text of `removeBreakpointCommand`: `Delete <id>` with a `null`
wait pattern. -/
def deleteCmd (id : Nat) : QCmd :=
  ⟨('D' :: 'e' :: 'l' :: 'e' :: 't' :: 'e' :: ' ' :: natStr id), .prompt⟩

/-- Command queued by `addBreakpointCommand`: `Break <name>:<line>` with the
confirmation regex. -/
def breakCmd (name : List Char) (line : Nat) : QCmd :=
  ⟨('B' :: 'r' :: 'e' :: 'a' :: 'k' :: ' ' :: name) ++ ':' :: natStr line,
   .breakConfirm name⟩

/-- `verifyBreakpoints(filePath)`: for every unverified breakpoint of
`normalizePath(filePath)` queue a `Break basename(filePath):line` command.
The `verified := true` flip happens only in the command's completion
callback, which this synchronous model leaves pending. -/
def verifyBreakpoints (pf : PathFns) (st : RTState) (filePath : String) :
    RTState :=
  match assocLookup st.breakPoints (pf.normalize filePath) with
  | none => st
  | some bps =>
      { st with
        queued := st.queued ++
          (bps.filter (fun bp => !bp.verified)).map
            (fun bp => breakCmd (pf.basename filePath).toList bp.line) }

/-- `setBreakPoint(filePath, line)`: allocate the next id (post-increment of
`_breakpointId`), append the unverified breakpoint to the file's array, then
trigger verification; returns the new breakpoint. -/
def setBreakPoint (pf : PathFns) (st : RTState) (filePath : String)
    (line : Nat) : RTState × MDBBreakpoint :=
  let resolvedPath := pf.normalize filePath
  let bp : MDBBreakpoint := ⟨st.breakpointId, line, false⟩
  let st := { st with breakpointId := st.breakpointId + 1 }
  let st := { st with breakPoints := assocAppend st.breakPoints resolvedPath bp }
  let st := verifyBreakpoints pf st resolvedPath
  (st, bp)

/-- `clearBreakpoints(filePath)`: queue one `Delete <id>` command per
registered breakpoint of the file.  The `_breakPoints.delete(path)` line of
the source is commented out, so the map is left untouched. -/
def clearBreakpoints (pf : PathFns) (st : RTState) (filePath : String) :
    RTState :=
  let fileBreakpoints := (assocLookup st.breakPoints (pf.normalize filePath)).getD []
  { st with queued := st.queued ++ fileBreakpoints.map (fun bp => deleteCmd bp.id) }

/-- `getBreakpoints(filePath, line)`: all breakpoints of the normalised file
whose line is `>= line`. -/
def getBreakpoints (pf : PathFns) (st : RTState) (filePath : String)
    (line : Nat) : List MDBBreakpoint :=
  ((assocLookup st.breakPoints (pf.normalize filePath)).getD []).filter
    (fun bp => line ≤ bp.line)

/-- Identity path functions, used for concrete evaluations. -/
def pfId : PathFns := ⟨fun s => s, fun s => s⟩

/-! ## Run / continue / step command submission (runtime.ts)

`run(stepEvent?)` has the doc comment "If stepEvent is specified only run a
single step and emit the stepEvent", but its body is just `this.process()`:
it starts the queue, pushes no command and emits no event.  `continue()`
pushes `Run` (waiting for `Running`) and then calls `run()`; `step(event)`
only calls `run(event)`.  `start` ends with `step('stopOnEntry')` when
`stopOnEntry` is set and with `continue()` otherwise. -/

/-- Commands pushed by `run(stepEvent?)` — none: the body only starts the
queue. -/
def runCmds (stepEvent : Option String) : List QCmd := []

/-- Events emitted by `run(stepEvent?)` — none: the body ignores
`stepEvent`. -/
def runEmits (stepEvent : Option String) : List String := []

/-- Commands pushed by one `continue()` call. -/
def continueCmds : List QCmd :=
  ⟨['R', 'u', 'n'], .literal ['R', 'u', 'n', 'n', 'i', 'n', 'g']⟩ :: runCmds none

/-- Commands pushed by one `step(event)` call. -/
def stepCmds (event : String) : List QCmd := runCmds (some event)

/-- Events emitted synchronously by one `step(event)` call. -/
def stepEmits (event : String) : List String := runEmits (some event)

/-- Commands pushed by the tail of `start` after the program-load command
succeeds. -/
def startTailCmds (stopOnEntry : Bool) : List QCmd :=
  if stopOnEntry then stepCmds "stopOnEntry" else continueCmds

/-! ## Theorems for claims C1, C6, C9 -/

/-- Claim C1 (code bug evaluated at the failing input): after
`setBreakPoint("a.c", 5)`, `clearBreakpoints("a.c")` queues exactly one
delete command (`Delete 1`, k = 1), yet `getBreakpoints("a.c", 0)` still
returns the breakpoint — not an empty collection — because the source keeps
the registry entry (`_breakPoints.delete` is commented out); the map is
unchanged for every state and file. -/
theorem C1_clear_breakpoints_registry_eval :
    (let st1 := (setBreakPoint pfId initialRTState "a.c" 5).1
     let st2 := clearBreakpoints pfId st1 "a.c"
     st2.queued = st1.queued ++ [deleteCmd 1] ∧
       (st2.queued.length - st1.queued.length) = 1 ∧
       getBreakpoints pfId st2 "a.c" 0 = [⟨1, 5, false⟩] ∧
       getBreakpoints pfId st2 "a.c" 0 ≠ []) ∧
    ∀ (pf : PathFns) (st : RTState) (f : String),
      (clearBreakpoints pf st f).breakPoints = st.breakPoints := by
  constructor
  · refine ⟨by decide, by decide, by decide, by decide⟩
  · intro pf st f
    rfl

/-- Claim C6 (code bug evaluated at the failing input): `step('stopOnEntry')`
submits no command at all and emits no event (the body of `run` ignores its
`stepEvent` argument, contradicting `run`'s own doc comment), so
`start({stopOnEntry: true})` issues zero additional step commands rather
than one; `continue()` does submit the `Run` command. -/
theorem C6_step_submits_no_command_eval :
    stepCmds "stopOnEntry" = [] ∧
    stepEmits "stopOnEntry" = [] ∧
    startTailCmds true = [] ∧
    continueCmds = [⟨['R', 'u', 'n'], .literal ['R', 'u', 'n', 'n', 'i', 'n', 'g']⟩] := by
  refine ⟨rfl, rfl, rfl, rfl⟩

/-- Apply a list of `setBreakPoint` calls in sequence, collecting the
returned breakpoints in call order. -/
def applyCalls (pf : PathFns) (st : RTState) :
    List (String × Nat) → RTState × List MDBBreakpoint
  | [] => (st, [])
  | (f, ln) :: rest =>
      let p := setBreakPoint pf st f ln
      let q := applyCalls pf p.1 rest
      (q.1, p.2 :: q.2)

theorem verifyBreakpoints_breakpointId (pf : PathFns) (st : RTState)
    (p : String) : (verifyBreakpoints pf st p).breakpointId = st.breakpointId := by
  unfold verifyBreakpoints
  cases assocLookup st.breakPoints (pf.normalize p) <;> rfl

theorem setBreakPoint_id (pf : PathFns) (st : RTState) (f : String) (ln : Nat) :
    (setBreakPoint pf st f ln).2.id = st.breakpointId := rfl

theorem setBreakPoint_breakpointId (pf : PathFns) (st : RTState) (f : String)
    (ln : Nat) : (setBreakPoint pf st f ln).1.breakpointId = st.breakpointId + 1 := by
  unfold setBreakPoint
  simp [verifyBreakpoints_breakpointId]

theorem applyCalls_ids (pf : PathFns) :
    ∀ (calls : List (String × Nat)) (st : RTState),
      ((applyCalls pf st calls).2.map (fun bp => bp.id)) =
        List.range' st.breakpointId calls.length := by
  intro calls
  induction calls with
  | nil => intro st; rfl
  | cons c rest ih =>
      intro st
      obtain ⟨f, ln⟩ := c
      simp only [applyCalls, List.map_cons, List.length_cons, List.range'_succ]
      rw [ih, setBreakPoint_breakpointId]
      rfl

/-- Claim C9 (confirmed): any number of sequential `setBreakPoint` calls, on
any mix of files and for any path-normalisation functions, return
breakpoints whose ids are strictly increasing in call order and globally
unique across all files, one per call. -/
theorem C9_breakpoint_ids_confirmed (pf : PathFns)
    (calls : List (String × Nat)) :
    (((applyCalls pf initialRTState calls).2.map (fun bp => bp.id)).Pairwise (· < ·)) ∧
    (((applyCalls pf initialRTState calls).2.map (fun bp => bp.id)).Nodup) ∧
    (applyCalls pf initialRTState calls).2.length = calls.length := by
  have h := applyCalls_ids pf calls initialRTState
  refine ⟨?_, ?_, ?_⟩
  · rw [h]
    exact List.pairwise_lt_range' _ _
  · rw [h]
    exact List.nodup_range' _ _
  · have := congrArg List.length h
    simpa using this

/-! ## waitForStdOut timeout and listener lifecycle (runtime.ts)

`waitForStdOut(patternOrString, timeout)` attaches a `data` listener on
stdout and starts a 1 ms interval timer counting `timeLeft` down from
`timeout`.  The listener: on a chunk containing `err` it rejects (staying
attached, timer still running); on a matching chunk it clears the timer,
detaches itself and resolves.  When `timeLeft` hits 0 the timer is cleared
and the promise rejected — but the listener is NOT detached on this path.
A JS promise settles at most once, so later resolve/reject calls on a
settled wait are no-ops.  Literal patterns use `String.includes`; the
claims exercise only the literal branch of `RegExp | string`. -/

/-- Settlement state of one wait's promise. -/
inductive WaitSettle where
  | pending
  | resolvedWith (msg : List Char)
  | rejectedErr (msg : List Char)
  | rejectedTimeout
deriving DecidableEq, Repr

/-- One pending/settled `waitForStdOut` call: its pattern, whether its
stdout `data` listener is still attached, whether its interval timer is
still running, the remaining tick budget, and the promise state. -/
structure WaitListener where
  pattern : List Char
  attached : Bool
  intervalActive : Bool
  timeLeft : Nat
  settle : WaitSettle
deriving DecidableEq, Repr

/-- A freshly created wait. -/
def startWait (p : List Char) (timeout : Nat) : WaitListener :=
  ⟨p, true, true, timeout, .pending⟩

/-- The stdout `data` handler of one wait, applied to one chunk. -/
def onDataListener (w : WaitListener) (msg : List Char) : WaitListener :=
  if !w.attached then w
  else if containsSub msg ['e', 'r', 'r'] then
    { w with settle := if w.settle = .pending then .rejectedErr msg else w.settle }
  else if containsSub msg w.pattern then
    { w with attached := false, intervalActive := false,
             settle := if w.settle = .pending then .resolvedWith msg else w.settle }
  else w

/-- One interval tick of one wait: `timeLeft--`, and on reaching 0 clear the
interval and reject — leaving `attached` untouched. -/
def onTick (w : WaitListener) : WaitListener :=
  if !w.intervalActive then w
  else
    let t := w.timeLeft - 1
    if t = 0 then
      { w with timeLeft := t, intervalActive := false,
               settle := if w.settle = .pending then .rejectedTimeout else w.settle }
    else { w with timeLeft := t }

/-- Events driving the set of active waits: a timer tick delivered to every
running interval, a stdout chunk delivered (EventEmitter-style) to every
attached listener, or a new `waitForStdOut` call. -/
inductive RTEvent where
  | tick
  | data (msg : List Char)
  | wait (p : List Char) (timeout : Nat)

/-- Apply one event to all waits. -/
def stepWaits (ls : List WaitListener) : RTEvent → List WaitListener
  | .tick => ls.map onTick
  | .data m => ls.map (fun w => onDataListener w m)
  | .wait p t => ls ++ [startWait p t]

/-- Run a sequence of events. -/
def runWaits (ls : List WaitListener) (es : List RTEvent) : List WaitListener :=
  es.foldl stepWaits ls

/-- Claim C2 counterexample: a wait on pattern `A` with a 2-tick budget that
sees no data is rejected when the budget runs out, but its stdout data
listener is still attached afterwards (`attached = true`), refuting the
claim that the listener is removed on the timeout path. -/
theorem C2_timeout_listener_not_removed_cex :
    runWaits [] [.wait ['A'] 2, .tick, .tick] =
      [⟨['A'], true, false, 0, .rejectedTimeout⟩] := by
  decide

theorem onTick_iterate :
    ∀ (n : Nat) (p : List Char), 0 < n →
      onTick^[n] (startWait p n) =
        ⟨p, true, false, 0, .rejectedTimeout⟩ := by
  have aux : ∀ (n : Nat) (p : List Char) (t : Nat), t = n → 0 < n →
      onTick^[n] ⟨p, true, true, t, .pending⟩ =
        ⟨p, true, false, 0, .rejectedTimeout⟩ := by
    intro n
    induction n with
    | zero => intro p t _ h; omega
    | succ m ih =>
        intro p t ht _
        rw [Function.iterate_succ_apply]
        by_cases hm : m = 0
        · subst hm
          subst ht
          simp [onTick]
        · have : onTick ⟨p, true, true, t, .pending⟩ = ⟨p, true, true, m, .pending⟩ := by
            have h1 : t - 1 = m := by omega
            simp [onTick, h1, hm]
          rw [this]
          exact ih p m rfl (by omega)
  intro n p h
  exact aux n p n rfl h

theorem runWaits_replicate_tick :
    ∀ (n : Nat) (w : WaitListener),
      runWaits [w] (List.replicate n .tick) = [onTick^[n] w] := by
  intro n
  induction n with
  | zero => intro w; rfl
  | succ m ih =>
      intro w
      rw [List.replicate_succ]
      show runWaits [onTick w] (List.replicate m .tick) = _
      rw [ih, Function.iterate_succ_apply]

/-- Claim C2 (amended): a wait whose pattern never appears within its
`timeout` ticks is rejected (the timeout outcome), but its stdout listener
is NOT removed on the timeout path; nevertheless, a subsequently submitted
wait whose pattern does appear in a later chunk (one not containing the
error marker) resolves with that chunk, because the abandoned wait's
promise is already settled and the event emitter delivers the chunk to
every attached listener. -/
theorem C2_timeout_reject_listener_leak_amended
    (p q m : List Char) (t t' : Nat) (ht : 0 < t)
    (hq : containsSub m q = true)
    (herr : containsSub m ['e', 'r', 'r'] = false) :
    ∃ w1 w2,
      runWaits [] ([.wait p t] ++ List.replicate t .tick ++ [.wait q t', .data m]) =
        [w1, w2] ∧
      w1.settle = .rejectedTimeout ∧
      (runWaits [] ([.wait p t] ++ List.replicate t .tick)).all
        (fun w => w.attached) = true ∧
      w2.settle = .resolvedWith m := by
  have hfirst : runWaits [] ([.wait p t] ++ List.replicate t .tick) =
      [⟨p, true, false, 0, .rejectedTimeout⟩] := by
    unfold runWaits
    rw [List.foldl_append]
    show runWaits (stepWaits [] (.wait p t)) (List.replicate t .tick) = _
    have : stepWaits [] (.wait p t) = [startWait p t] := rfl
    rw [this, runWaits_replicate_tick, onTick_iterate t p ht]
  refine ⟨onDataListener ⟨p, true, false, 0, .rejectedTimeout⟩ m,
          onDataListener (startWait q t') m, ?_, ?_, ?_, ?_⟩
  · unfold runWaits
    rw [show ([RTEvent.wait p t] ++ List.replicate t .tick ++ [.wait q t', .data m]) =
          (([.wait p t] ++ List.replicate t .tick) ++ [.wait q t', .data m]) by
        simp [List.append_assoc]]
    rw [List.foldl_append]
    show runWaits (runWaits [] ([.wait p t] ++ List.replicate t .tick))
          [.wait q t', .data m] = _
    rw [hfirst]
    rfl
  · unfold onDataListener
    simp only [herr]
    by_cases hp : containsSub m p = true
    · simp [hp]
    · simp [hp]
  · rw [hfirst]
    rfl
  · unfold onDataListener startWait
    simp [herr, hq]

/-- Witness for the amended C2 theorem at a concrete instance: pattern `A`
with 1 tick of budget, then a wait on `B` satisfied by the chunk `B-ok`. -/
theorem C2_timeout_reject_listener_leak_amended_witness :
    ∃ w1 w2,
      runWaits [] ([.wait ['A'] 1] ++ List.replicate 1 .tick ++
          [.wait ['B'] 5, .data ['B', '-', 'o', 'k']]) = [w1, w2] ∧
      w1.settle = .rejectedTimeout ∧
      (runWaits [] ([.wait ['A'] 1] ++ List.replicate 1 .tick)).all
        (fun w => w.attached) = true ∧
      w2.settle = .resolvedWith ['B', '-', 'o', 'k'] :=
  C2_timeout_reject_listener_leak_amended ['A'] ['B'] ['B', '-', 'o', 'k'] 1 5
    (by decide) (by decide) (by decide)

/-! ## Backtrace parsing: `stack(startFrame, endFrame)` (runtime.ts)

The collected backtrace buffer is split on `\r\n`; each line is matched
against the unanchored JS regex
`#(\d+)  ([a-zA-z0-9_ ]+) \(\) at (.+):(\d+)` (note: the class `a-zA-z`
spans ASCII 65..122, so it also admits the punctuation between `Z` and
`a`); matching lines become `{index, name, file, line}` frames with index
and line via `parseInt(..., 10)`, non-matching lines are dropped. -/

/-- A parsed stack frame. -/
structure MDBStackFrame where
  index : Nat
  name : List Char
  file : List Char
  line : Nat
deriving DecidableEq, Repr

/-- The character class `[a-zA-z0-9_ ]` of the backtrace regex: ASCII
65..122 (which covers the letters, the underscore and some punctuation),
the digits, and the space. -/
def nameClassCh (c : Char) : Bool :=
  (65 ≤ c.toNat && c.toNat ≤ 122) || isDigitCh c || c == ' '

/-- The JS regex `.` (without the `s` flag): any character except a line
terminator.  The inputs here are ASCII, so only `\n` and `\r` matter. -/
def jsDot (c : Char) : Bool := !(c == '\n' || c == '\r')

/-- Search, from the high end, for the split point of `(.+):(\d+)`: the
largest `k` such that the first `k` characters are `.`-matching, position
`k` holds `:` and position `k+1` a digit — the greedy `(.+)` tries the
longest prefix first and backtracks, so the last viable colon wins. -/
def lastColonSplit (l : List Char) : Option Nat :=
  let m0 := (l.takeWhile jsDot).length
  (List.range (m0 + 1)).reverse.find? (fun k =>
    decide (1 ≤ k) &&
    (match l.get? k with | some ':' => true | _ => false) &&
    (match l.get? (k + 1) with | some c => isDigitCh c | none => false))

/-- Try to match the whole backtrace regex with the match starting exactly
at the head of `l`. -/
def backtraceMatchHere (l : List Char) : Option MDBStackFrame :=
  match l with
  | '#' :: r1 =>
      let ds := r1.takeWhile isDigitCh
      if ds.isEmpty then none
      else
        let r2 := r1.drop ds.length
        if beginsWith r2 [' ', ' '] then
          let r3 := r2.drop 2
          let j0 := (r3.takeWhile nameClassCh).length
          match (List.range (j0 + 1)).reverse.find? (fun j =>
              decide (1 ≤ j) &&
              beginsWith (r3.drop j) [' ', '(', ')', ' ', 'a', 't', ' ']) with
          | none => none
          | some j =>
              let r4 := r3.drop (j + 7)
              match lastColonSplit r4 with
              | none => none
              | some k =>
                  some ⟨digitsToNat ds, r3.take j, r4.take k,
                        digitsToNat ((r4.drop (k + 1)).takeWhile isDigitCh)⟩
        else none
  | _ => none

/-- Unanchored regex search over a line: the leftmost position at which the
pattern matches wins, as with JS `String.prototype.match`. -/
def backtraceLineMatch : List Char → Option MDBStackFrame
  | [] => none
  | l@(_ :: rest) =>
      match backtraceMatchHere l with
      | some f => some f
      | none => backtraceLineMatch rest

/-- JS `String.prototype.split('\r\n')`. -/
def splitOnCRLF : List Char → List (List Char)
  | [] => [[]]
  | '\r' :: '\n' :: rest => [] :: splitOnCRLF rest
  | c :: rest =>
      match splitOnCRLF rest with
      | [] => [[c]]
      | h :: t => (c :: h) :: t

/-- Join lines with `\r\n` separators (the inverse of `splitOnCRLF` on
separator-free lines). -/
def joinCRLF : List (List Char) → List Char
  | [] => []
  | [l] => l
  | l :: ls => l ++ '\r' :: '\n' :: joinCRLF ls


/-- The pure parsing tail of `stack`: split the collected buffer on `\r\n`,
match every line against the backtrace regex, keep the parsed frames of the
matching lines in input order. -/
def stackParse (text : List Char) : List MDBStackFrame :=
  (splitOnCRLF text).filterMap backtraceLineMatch

theorem splitOnCRLF_noSep (l : List Char)
    (h : containsSub l ['\r', '\n'] = false) : splitOnCRLF l = [l] := by
  induction l with
  | nil => rfl
  | cons c rest ih =>
      have hparts : beginsWith (c :: rest) ['\r', '\n'] = false ∧
          containsSub rest ['\r', '\n'] = false := by
        have := h
        simp only [containsSub, Bool.or_eq_false_iff] at this
        exact this
      rw [splitOnCRLF.eq_def]
      split
      · rename_i heq
        exact absurd heq (by simp)
      · rename_i rest' heq
        obtain ⟨hc, hrest⟩ := List.cons.injEq .. ▸ heq
        exfalso
        rw [hc, hrest] at hparts
        simp [beginsWith] at hparts
      · rename_i c' rest' hne1 hne2 heq
        obtain ⟨hc, hrest⟩ := List.cons.injEq .. ▸ heq
        subst hc
        subst hrest
        rw [ih hparts.2]

theorem splitOnCRLF_append_sep (l : List Char)
    (h : containsSub l ['\r', '\n'] = false) (rest : List Char) :
    splitOnCRLF (l ++ '\r' :: '\n' :: rest) = l :: splitOnCRLF rest := by
  induction l with
  | nil => rfl
  | cons c cs ih =>
      have hparts : beginsWith (c :: cs) ['\r', '\n'] = false ∧
          containsSub cs ['\r', '\n'] = false := by
        have := h
        simp only [containsSub, Bool.or_eq_false_iff] at this
        exact this
      show splitOnCRLF (c :: (cs ++ '\r' :: '\n' :: rest)) = _
      rw [splitOnCRLF.eq_def]
      split
      · rename_i heq
        exact absurd heq (by simp)
      · rename_i rest' heq
        obtain ⟨hc, htl⟩ := List.cons.injEq .. ▸ heq
        exfalso
        cases cs with
        | nil => simp at htl
        | cons c2 cs2 =>
            have hc2 : c2 = '\n' := by
              have := congrArg List.head? htl
              simpa using this
            rw [hc, hc2] at hparts
            simp [beginsWith] at hparts
      · rename_i c' rest' hne1 hne2 heq
        obtain ⟨hc, htl⟩ := List.cons.injEq .. ▸ heq
        subst hc
        rw [← htl, ih hparts.2]

theorem splitOnCRLF_joinCRLF (lines : List (List Char)) (hne : lines ≠ [])
    (h : ∀ l ∈ lines, containsSub l ['\r', '\n'] = false) :
    splitOnCRLF (joinCRLF lines) = lines := by
  induction lines with
  | nil => exact absurd rfl hne
  | cons l ls ih =>
      cases ls with
      | nil =>
          show splitOnCRLF l = [l]
          exact splitOnCRLF_noSep l (h l (by simp))
      | cons l2 ls2 =>
          show splitOnCRLF (l ++ '\r' :: '\n' :: joinCRLF (l2 :: ls2)) = _
          rw [splitOnCRLF_append_sep l (h l (by simp)) _]
          rw [ih (by simp) (fun x hx => h x (by simp [List.mem_cons] at hx ⊢; tauto))]

/-- Claim C8 (confirmed): fed the backtrace lines `#0  main () at main.c:10`,
`#1  isr () at isr.c:4` and the non-matching line
`mdb finished stepping`, `stack`'s parser returns exactly the two frames, in
that order, with index, name, file and line parsed as the claim states; and
in general, for any nonempty list of `\r\n`-free lines, the parser returns
exactly the per-line regex parses of the matching lines in input order,
discarding the non-matching lines. -/
theorem C8_stack_parse_confirmed :
    stackParse ("#0  main () at main.c:10\r\n#1  isr () at isr.c:4\r\nmdb finished stepping".toList) =
      [⟨0, "main".toList, "main.c".toList, 10⟩,
       ⟨1, "isr".toList, "isr.c".toList, 4⟩] ∧
    ∀ (lines : List (List Char)), lines ≠ [] →
      (∀ l ∈ lines, containsSub l ['\r', '\n'] = false) →
      stackParse (joinCRLF lines) = lines.filterMap backtraceLineMatch := by
  constructor
  · decide
  · intro lines hne h
    unfold stackParse
    rw [splitOnCRLF_joinCRLF lines hne h]

/-- Witness for the universally quantified part of the C8 theorem, at the
three concrete lines of the scenario. -/
theorem C8_stack_parse_witness :
    stackParse (joinCRLF ["#0  main () at main.c:10".toList,
        "#1  isr () at isr.c:4".toList, "mdb finished stepping".toList]) =
      [⟨0, "main".toList, "main.c".toList, 10⟩,
       ⟨1, "isr".toList, "isr.c".toList, 4⟩] := by
  exact (C8_stack_parse_confirmed.2 _ (by decide) (by decide)).trans (by decide)

/-! ## Stdout event parsing: `parseStdOutMessage` / `fireEventsForData`

Every stdout chunk runs `parseStdOutMessage`.  A chunk whose lowercased
text contains `stop at` (re)starts buffering with `eventType := STOP_AT`
and `_stdoutBuffer := message`; then, whenever buffering is on, the chunk
is appended to the buffer (so the marker chunk is stored twice), `\n`s are
stripped and the buffer is matched globally against
`address:(0x.{8})|file:(.+)|source line:(\d+)`.  As soon as at least three
matches — of any mix of the three alternatives — are present, buffering
stops and an event object is built by splitting every match on `:`
(key = first segment, value = second segment, or the join of segments from
the third on when there are more than two), renaming `source line` to
`line` with `parseInt(v,10)` and converting `address` with
`parseInt(v,16)`; later matches of the same key overwrite earlier ones.
`fireEventsForData` then acts only on events whose type is `STOP_AT`. -/

/-- The event types of the runtime. -/
inductive EventType where
  | STOP_AT
  | STACK_FRAMES
deriving DecidableEq, Repr

/-- The event payload assembled by `parseStdOutMessage`: each field is
absent (`none`) unless some regex match populated it; the inner `Option`
of `address`/`line` models a `NaN` parse. -/
structure EventData where
  eventType : Option EventType
  address : Option (Option Nat)
  file : Option (List Char)
  line : Option (Option Nat)
deriving DecidableEq, Repr

/-- Match one alternative of the field regex at the head of `l`, returning
the full match text and its length.  Alternatives are tried in source
order: `address:(0x.{8})` (exactly eight `.` characters), `file:(.+)`
(greedy), `source line:(\d+)` (greedy). -/
def fieldMatchHere (l : List Char) : Option (List Char × Nat) :=
  if beginsWith l ("address:0x".toList) ∧
      ((l.drop 10).take 8).length = 8 ∧ ((l.drop 10).take 8).all jsDot then
    some (l.take 18, 18)
  else if beginsWith l ("file:".toList) ∧ 1 ≤ ((l.drop 5).takeWhile jsDot).length then
    some (l.take (5 + ((l.drop 5).takeWhile jsDot).length),
          5 + ((l.drop 5).takeWhile jsDot).length)
  else if beginsWith l ("source line:".toList) ∧
      1 ≤ ((l.drop 12).takeWhile isDigitCh).length then
    some (l.take (12 + ((l.drop 12).takeWhile isDigitCh).length),
          12 + ((l.drop 12).takeWhile isDigitCh).length)
  else none

/-- Global regex scan (`String.prototype.match` with the `g` flag): collect
the leftmost matches left to right, resuming after each match, advancing by
one character where no alternative matches.  The fuel is the length of the
text; every step consumes at least one character, so it never runs out. -/
def scanFieldsAux : Nat → List Char → List (List Char)
  | 0, _ => []
  | _ + 1, [] => []
  | fuel + 1, l@(_ :: rest) =>
      match fieldMatchHere l with
      | some (m, k) => m :: scanFieldsAux fuel (l.drop k)
      | none => scanFieldsAux fuel rest

/-- All matches of the field regex in the text. -/
def scanFields (l : List Char) : List (List Char) :=
  scanFieldsAux l.length l

/-- JS `String.prototype.split(':')`. -/
def splitOnColon (l : List Char) : List (List Char) :=
  match l with
  | [] => [[]]
  | ':' :: rest =>
      [] :: splitOnColon rest
  | c :: rest =>
      match splitOnColon rest with
      | [] => [[c]]
      | h :: t => (c :: h) :: t

/-- Rejoin with `:` the segments dropped by `parts.slice(2).join(':')`. -/
def joinColon : List (List Char) → List Char
  | [] => []
  | [l] => l
  | l :: ls => l ++ ':' :: joinColon ls

/-- The key/value extraction of the reduce step: split a match on `:`; with
at most two segments the pair is (first, second); with more, the value is
the `:`-join of the segments from the third on (the second segment is
dropped, as in the source). -/
def matchKeyVal (m : List Char) : List Char × List Char :=
  let parts := splitOnColon m
  if parts.length ≤ 2 then (parts.headD [], (parts.drop 1).headD [])
  else (parts.headD [], joinColon (parts.drop 2))

/-- Fold one match into the event object being built. -/
def collectMatch (d : EventData) (m : List Char) : EventData :=
  let kv := matchKeyVal m
  let sanitizedKey := kv.1.map (fun c => if c = ' ' then '_' else c)
  if sanitizedKey = "source_line".toList then
    { d with line := some (parseInt10 kv.2) }
  else if sanitizedKey = "address".toList then
    { d with address := some (convertHexToNumber kv.2) }
  else if sanitizedKey = "file".toList then
    { d with file := some kv.2 }
  else d

/-- Build the event payload from the list of matches, stamping the current
event type. -/
def buildEventData (ms : List (List Char)) (et : Option EventType) :
    EventData :=
  { ms.foldl collectMatch ⟨none, none, none, none⟩ with eventType := et }

/-- The parser state: the runtime's `eventType`, `_stdoutBuffering` and
`_stdoutBuffer` fields. -/
structure ParserState where
  eventType : Option EventType
  buffering : Bool
  buffer : List Char
deriving DecidableEq, Repr

/-- Fresh parser state. -/
def initParserState : ParserState := ⟨none, false, []⟩

/-- The buffering half of `parseStdOutMessage`: append the chunk, strip
`\n`, scan; with three or more matches stop buffering, clear the buffer and
fire an event carrying the current event type. -/
def parseStepCore (s : ParserState) (msg : List Char) :
    ParserState × Option EventData :=
  if s.buffering then
    let buf := s.buffer ++ msg
    let ms := scanFields (buf.filter (fun c => !(c == '\n')))
    if 3 ≤ ms.length then
      (⟨s.eventType, false, []⟩, some (buildEventData ms s.eventType))
    else
      (⟨s.eventType, true, buf⟩, none)
  else (s, none)

/-- Is the `stop at` marker present (case-insensitively) in the chunk? -/
def hasStopMarker (msg : List Char) : Bool :=
  containsSub (jsToLowerStr msg) ("stop at".toList)

/-- One `parseStdOutMessage` call: the marker branch, then the buffering
branch. -/
def parseStep (s : ParserState) (msg : List Char) :
    ParserState × Option EventData :=
  parseStepCore
    (if hasStopMarker msg then ⟨some .STOP_AT, true, msg⟩ else s) msg

/-- Process a sequence of stdout chunks, collecting fired events. -/
def parseSteps (s : ParserState) : List (List Char) →
    ParserState × List EventData
  | [] => (s, [])
  | m :: ms =>
      let p := parseStep s m
      let q := parseSteps p.1 ms
      (q.1, p.2.toList ++ q.2)

theorem parseStepCore_eventType (s : ParserState) (msg : List Char) :
    (parseStepCore s msg).1.eventType = s.eventType := by
  unfold parseStepCore
  by_cases hb : s.buffering
  · simp only [hb, if_true]
    split <;> rfl
  · simp [hb]

theorem parseStepCore_event_eventType (s : ParserState) (msg : List Char)
    (e : EventData) (h : (parseStepCore s msg).2 = some e) :
    e.eventType = s.eventType := by
  unfold parseStepCore at h
  by_cases hb : s.buffering
  · simp only [hb, if_true] at h
    split at h
    · simp only [Option.some.injEq] at h
      rw [← h]
      rfl
    · exact absurd h (by simp)
  · simp [hb] at h

theorem parseStep_eventType (s : ParserState) (msg : List Char) :
    (parseStep s msg).1.eventType =
      (if hasStopMarker msg then some .STOP_AT else s.eventType) := by
  unfold parseStep
  by_cases h : hasStopMarker msg
  · simp [h, parseStepCore_eventType]
  · simp [h, parseStepCore_eventType]

theorem parseStep_event_eventType (s : ParserState) (msg : List Char)
    (e : EventData) (h : (parseStep s msg).2 = some e) :
    e.eventType = (if hasStopMarker msg then some .STOP_AT else s.eventType) := by
  unfold parseStep at h
  by_cases hm : hasStopMarker msg
  · rw [if_pos hm] at h
    rw [if_pos hm]
    exact parseStepCore_event_eventType _ _ _ h
  · rw [if_neg hm] at h
    rw [if_neg hm]
    exact parseStepCore_event_eventType _ _ _ h

theorem parseSteps_stop_at_needs_marker :
    ∀ (msgs : List (List Char)) (s : ParserState) (e : EventData),
      e ∈ (parseSteps s msgs).2 → e.eventType = some .STOP_AT →
      s.eventType = some .STOP_AT ∨ ∃ m ∈ msgs, hasStopMarker m = true := by
  intro msgs
  induction msgs with
  | nil =>
      intro s e he _
      exact absurd he (by simp [parseSteps])
  | cons m ms ih =>
      intro s e he het
      have hsplit : (parseStep s m).2 = some e ∨ e ∈ (parseSteps (parseStep s m).1 ms).2 := by
        simp only [parseSteps, List.mem_append] at he
        cases he with
        | inl h => exact Or.inl (by cases hp : (parseStep s m).2 <;> simp [hp] at h <;> simp [h])
        | inr h => exact Or.inr h
      cases hsplit with
      | inl h =>
          have := parseStep_event_eventType s m e h
          by_cases hm : hasStopMarker m
          · exact Or.inr ⟨m, by simp, hm⟩
          · rw [if_neg hm] at this
            exact Or.inl (this ▸ het)
      | inr h =>
          cases ih (parseStep s m).1 e h het with
          | inl h1 =>
              rw [parseStep_eventType] at h1
              by_cases hm : hasStopMarker m
              · exact Or.inr ⟨m, by simp, hm⟩
              · rw [if_neg hm] at h1
                exact Or.inl h1
          | inr h1 =>
              obtain ⟨m', hm', hmar⟩ := h1
              exact Or.inr ⟨m', by simp [hm'], hmar⟩

/-- Claim C5 counterexample: the single chunk
`stop at\rsource line:1\rsource line:2\rsource line:3` fires a `STOP_AT`
event even though the accumulated text contains no memory-address field and
no file field — three matches of the *same* keyed field satisfy the
`matches.length >= 3` check — refuting the claim that an event is emitted
only once all three required fields are present. -/
theorem C5_stop_at_missing_fields_cex :
    (parseSteps initParserState
        ["stop at\rsource line:1\rsource line:2\rsource line:3".toList]).2 =
      [⟨some .STOP_AT, none, none, some (some 3)⟩] := by
  decide

/-- Claim C5 (amended): a `STOP_AT` event is fired only after some chunk
containing the case-insensitive marker `stop at` has been seen, and the
fields it carries are parsed as the claim states (address as hexadecimal,
source line as decimal) — but the trigger is only that the accumulated text
holds at least three matches of the field alternation, which need not cover
all three distinct fields.  The second conjunct shows the well-formed
scenario: marker chunk, then `address:`/`file:`/`source line:` chunks, fire
one event with address `0x00000abc` parsed as 2748 and line `10`. -/
theorem C5_stop_at_marker_and_parse_amended :
    (∀ (msgs : List (List Char)) (e : EventData),
      e ∈ (parseSteps initParserState msgs).2 →
      e.eventType = some .STOP_AT →
      ∃ m ∈ msgs, hasStopMarker m = true) ∧
    (parseSteps initParserState
        ["Stop at\r".toList, "address:0x00000abc\r".toList,
         "file:main.c\r".toList, "source line:10\r".toList]).2 =
      [⟨some .STOP_AT, some (some 2748), some ("main.c".toList),
        some (some 10)⟩] := by
  constructor
  · intro msgs e he het
    cases parseSteps_stop_at_needs_marker msgs initParserState e he het with
    | inl h => exact absurd h (by simp [initParserState])
    | inr h => exact h
  · decide

/-- Witness for the amended C5 theorem: its universal part applied to the
counterexample trace, whose single fired event is of type `STOP_AT`. -/
theorem C5_stop_at_marker_and_parse_amended_witness :
    ∃ m ∈ ["stop at\rsource line:1\rsource line:2\rsource line:3".toList],
      hasStopMarker m = true :=
  C5_stop_at_marker_and_parse_amended.1
    ["stop at\rsource line:1\rsource line:2\rsource line:3".toList]
    ⟨some .STOP_AT, none, none, some (some 3)⟩
    (by decide) (by decide)

/-! ## ELF reader (src/utils/elf.ts)

The byte buffer is a `List Nat`.  JavaScript `DataView` reads throw a
RangeError when any accessed byte lies past the end of the buffer; reads
are therefore `Option`-valued here, and a failed read surfaces as a
`throws` outcome of the surrounding load.  Endianness is big-endian until
the header's `E_ident_data` byte is read.  8-byte fields are stored as two
32-bit halves (`value` at the element's offset, `value2` four bytes
further), and `Get32BitValue` returns the half holding the low 32 bits. -/

/-- `DataView.getUint8`. -/
def getUint8 (buf : List Nat) (off : Nat) : Option Nat := buf.get? off

/-- `DataView.getUint16(off, littleEndian)`. -/
def getUint16 (buf : List Nat) (off : Nat) (le : Bool) : Option Nat :=
  match buf.get? off, buf.get? (off + 1) with
  | some b0, some b1 => some (if le then b0 + 256 * b1 else 256 * b0 + b1)
  | _, _ => none

/-- `DataView.getUint32(off, littleEndian)`. -/
def getUint32 (buf : List Nat) (off : Nat) (le : Bool) : Option Nat :=
  match buf.get? off, buf.get? (off + 1), buf.get? (off + 2), buf.get? (off + 3) with
  | some b0, some b1, some b2, some b3 =>
      some (if le then b0 + 256 * b1 + 65536 * b2 + 16777216 * b3
            else 16777216 * b0 + 65536 * b1 + 256 * b2 + b3)
  | _, _, _, _ => none

/-- An `ELFElement`: its file offset, its `value`, its `value2` (the second
32-bit half — `undefined`, modelled `none`, unless the width is 8), and its
width in bytes. -/
structure ELFElement where
  offset : Nat
  value : Nat
  value2 : Option Nat
  valueSizeInBytes : Nat
deriving DecidableEq, Repr

/-- The `ELFElement` constructor: width-specific reads; width 8 reads two
32-bit words; any other width yields value 0 without reading. -/
def elfElementLoad (buf : List Nat) (le : Bool) (off size : Nat) :
    Option ELFElement :=
  if size = 1 then (getUint8 buf off).map (fun v => ⟨off, v, none, size⟩)
  else if size = 2 then (getUint16 buf off le).map (fun v => ⟨off, v, none, size⟩)
  else if size = 4 then (getUint32 buf off le).map (fun v => ⟨off, v, none, size⟩)
  else if size = 8 then
    match getUint32 buf off le, getUint32 buf (off + 4) le with
    | some lo, some hi => some ⟨off, lo, some hi, size⟩
    | _, _ => none
  else some ⟨off, 0, none, size⟩

/-- `Get32BitValue`: the value itself for widths up to 4; for width 8 the
half holding the least significant 32 bits (first word when little-endian,
second when big-endian). -/
def ELFElement.get32 (e : ELFElement) (le : Bool) : Nat :=
  if e.valueSizeInBytes ≤ 4 then e.value
  else if le then e.value else e.value2.getD 0

/-- JS loose equality `value2 == 0`: false when `value2` is `undefined`. -/
def looseEqZero (v : Option Nat) : Bool :=
  match v with
  | some n => n == 0
  | none => false

/-- `ELFFileAccess.ReadByteString`: read bytes from `start`, stopping at a
zero byte, at the end of the buffer, or after `maxLen` bytes — this read
never throws. -/
def readByteString (buf : List Nat) (start : Nat) : Nat → List Nat
  | 0 => []
  | n + 1 =>
      match buf.get? start with
      | none => []
      | some 0 => []
      | some b => b :: readByteString buf (start + 1) n

/-- Load a run of `count` records by index (`f i` loads the record at index
`i`), failing as soon as one record's reads fail. -/
def loadSeq {α : Type} (f : Nat → Option α) : Nat → Nat → Option (List α)
  | _, 0 => some []
  | i, n + 1 =>
      match f i with
      | none => none
      | some e =>
          match loadSeq f (i + 1) n with
          | none => none
          | some rest => some (e :: rest)

theorem loadSeq_length {α : Type} (f : Nat → Option α) :
    ∀ (n i : Nat) (l : List α), loadSeq f i n = some l → l.length = n := by
  intro n
  induction n with
  | zero =>
      intro i l h
      simp only [loadSeq, Option.some.injEq] at h
      rw [← h]
      rfl
  | succ m ih =>
      intro i l h
      unfold loadSeq at h
      cases hfi : f i with
      | none => rw [hfi] at h; exact absurd h (by simp)
      | some e =>
          rw [hfi] at h
          cases hrest : loadSeq f (i + 1) m with
          | none => rw [hrest] at h; exact absurd h (by simp)
          | some rest =>
              rw [hrest] at h
              simp only [Option.some.injEq] at h
              rw [← h]
              simp [ih (i + 1) rest hrest]

/-- One symbol-table entry: the six `ELFElement`s of `ELFSymbolTableEntry`. -/
structure SymEntry where
  stName : ELFElement
  stValue : ELFElement
  stSize : ELFElement
  stInfo : ELFElement
  stOther : ELFElement
  stShndx : ELFElement
deriving DecidableEq, Repr

/-- `ELFSymbolTableEntry.load(startAddress)`: the 64-bit layout reads name,
info, other, shndx, value, size; the 32-bit layout reads name, value, size,
info, other, shndx. -/
def symEntryLoad (buf : List Nat) (le : Bool) (is64 : Bool) (s : Nat) :
    Option SymEntry :=
  if is64 then
    match elfElementLoad buf le s 4, elfElementLoad buf le (s + 4) 1,
          elfElementLoad buf le (s + 5) 1, elfElementLoad buf le (s + 6) 2,
          elfElementLoad buf le (s + 8) 8, elfElementLoad buf le (s + 16) 8 with
    | some nm, some inf, some oth, some shn, some v, some sz =>
        some ⟨nm, v, sz, inf, oth, shn⟩
    | _, _, _, _, _, _ => none
  else
    match elfElementLoad buf le s 4, elfElementLoad buf le (s + 4) 4,
          elfElementLoad buf le (s + 8) 4, elfElementLoad buf le (s + 12) 1,
          elfElementLoad buf le (s + 13) 1, elfElementLoad buf le (s + 14) 2 with
    | some nm, some v, some sz, some inf, some oth, some shn =>
        some ⟨nm, v, sz, inf, oth, shn⟩
    | _, _, _, _, _, _ => none

/-- The iteration count of `ELFSymbolTable.load`:
`numOfEntrys = Sh_Size / Sh_Entsize` in JS number arithmetic, driving
`for (i = 0; i < numOfEntrys; i++)`.  With a positive entry size the loop
runs `⌈size/entsize⌉` times (the bound is the exact quotient, not its
floor); with entry size 0 the bound is `Infinity` when the size is positive
(the loop never terminates, `none`) and `NaN` when the size is 0 (zero
iterations). -/
def symTabNumEntries (shSize shEntsize : Nat) : Option Nat :=
  if shEntsize = 0 then (if shSize = 0 then some 0 else none)
  else some ((shSize + shEntsize - 1) / shEntsize)

/-- Outcome of `ELFSymbolTable.load`. -/
inductive SymTabOut where
  | ok (entries : List SymEntry)
  | throws
  | diverges
deriving DecidableEq, Repr

/-- `ELFSymbolTable.load` on the declared offset/size/entsize values of its
section: load entry `i` at `Sh_Offset + i * Sh_Entsize` for every `i` below
the iteration bound.  No validation of the declared values happens; an
entry whose reads leave the buffer throws, and a zero entry size with a
positive section size never terminates. -/
def symbolTableLoadV (buf : List Nat) (le : Bool) (is64 : Bool)
    (off size entsize : Nat) : SymTabOut :=
  match symTabNumEntries size entsize with
  | none => .diverges
  | some n =>
      match loadSeq (fun i => symEntryLoad buf le is64 (off + i * entsize)) 0 n with
      | some es => .ok es
      | none => .throws

/-- Number of entries of an `ok` outcome. -/
def symTabOutLength : SymTabOut → Nat
  | .ok es => es.length
  | _ => 0

/-- Claim C4 counterexample: a symbol-table section declaring offset 0,
size 16, entry size 16 over an empty buffer makes `ELFSymbolTable.load`
fail — the first entry's `DataView` reads are out of bounds and throw — so
symbol-table loading is not error-free for arbitrary declared values. -/
theorem C4_symtab_load_throws_cex :
    symbolTableLoadV [] false false 0 16 16 = SymTabOut.throws := by
  decide

/-- Outcome of a loader stage of `ELFFile`: a returned
`ELFFileLoadResult`-style value, a thrown exception, or non-termination. -/
inductive JSRes (α : Type) where
  | ok (a : α)
  | invalidELF
  | throws
  | diverges
deriving DecidableEq, Repr

/-- One section-header table entry: the ten `ELFElement`s of
`ELFSectionHeaderTable`. -/
structure SectionHeader where
  shName : ELFElement
  shType : ELFElement
  shFlags : ELFElement
  shAddr : ELFElement
  shOffset : ELFElement
  shSize : ELFElement
  shLink : ELFElement
  shInfo : ELFElement
  shAddralign : ELFElement
  shEntsize : ELFElement
deriving DecidableEq, Repr

/-- `ELFSectionHeaderTable.load(startAddress)`: name and type are 4-byte;
flags/addr/offset/size/addralign/entsize use the word size (8 for ELF64, 4
for ELF32); link and info are 4-byte. -/
def secEntryLoad (buf : List Nat) (le : Bool) (is64 : Bool) (s : Nat) :
    Option SectionHeader :=
  let e := if is64 then 8 else 4
  match elfElementLoad buf le s 4, elfElementLoad buf le (s + 4) 4,
        elfElementLoad buf le (s + 8) e, elfElementLoad buf le (s + 8 + e) e,
        elfElementLoad buf le (s + 8 + 2 * e) e,
        elfElementLoad buf le (s + 8 + 3 * e) e,
        elfElementLoad buf le (s + 8 + 4 * e) 4,
        elfElementLoad buf le (s + 12 + 4 * e) 4,
        elfElementLoad buf le (s + 16 + 4 * e) e,
        elfElementLoad buf le (s + 16 + 5 * e) e with
  | some nm, some ty, some fl, some ad, some off, some sz, some lk, some inf,
    some al, some ent => some ⟨nm, ty, fl, ad, off, sz, lk, inf, al, ent⟩
  | _, _, _, _, _, _, _, _, _, _ => none

/-- `ELFFile.loadSymbolTables`: for every section of type `SHT_SYMTAB` (2)
or `SHT_DYNSYM` (11), in order, run `ELFSymbolTable.load`; the collected
tables (paired with their section) are the `elfSymbolTables` array.  The
source returns `OK` unconditionally on normal completion — there is no
`INVALID_ELF` path here; a throwing or diverging table load aborts the
stage. -/
def loadSymbolTablesAll (buf : List Nat) (le : Bool) (is64 : Bool) :
    List SectionHeader → JSRes Unit × List (SectionHeader × List SymEntry)
  | [] => (.ok (), [])
  | sec :: rest =>
      if sec.shType.get32 le == 2 || sec.shType.get32 le == 11 then
        match symbolTableLoadV buf le is64 (sec.shOffset.get32 le)
            (sec.shSize.get32 le) (sec.shEntsize.get32 le) with
        | .ok es =>
            let r := loadSymbolTablesAll buf le is64 rest
            (r.1, (sec, es) :: r.2)
        | .throws => (.throws, [])
        | .diverges => (.diverges, [])
      else loadSymbolTablesAll buf le is64 rest

theorem loadSymbolTablesAll_ne_invalid (buf : List Nat) (le is64 : Bool) :
    ∀ secs, (loadSymbolTablesAll buf le is64 secs).1 ≠ JSRes.invalidELF := by
  intro secs
  induction secs with
  | nil => simp [loadSymbolTablesAll]
  | cons sec rest ih =>
      unfold loadSymbolTablesAll
      by_cases hq : (sec.shType.get32 le == 2 || sec.shType.get32 le == 11) = true
      · rw [if_pos hq]
        cases hsym : symbolTableLoadV buf le is64 (sec.shOffset.get32 le)
            (sec.shSize.get32 le) (sec.shEntsize.get32 le) with
        | ok es => simpa using ih
        | throws => simp
        | diverges => simp
      · rw [if_neg hq]
        exact ih

/-- Claim C4 (amended): the symbol-table stage never reports `INVALID_ELF`
— it performs no bounds validation and returns `OK` whenever it completes —
but it is not failure-free: a declared zero entry size with positive
section size makes the load loop diverge (and out-of-bounds entries make it
throw, as the counterexample shows). -/
theorem C4_symtab_never_invalid_amended :
    (∀ (buf : List Nat) (le is64 : Bool) (secs : List SectionHeader),
      (loadSymbolTablesAll buf le is64 secs).1 ≠ JSRes.invalidELF) ∧
    (∀ (buf : List Nat) (le is64 : Bool) (off size : Nat), 0 < size →
      symbolTableLoadV buf le is64 off size 0 = .diverges) := by
  constructor
  · intro buf le is64 secs
    exact loadSymbolTablesAll_ne_invalid buf le is64 secs
  · intro buf le is64 off size h
    unfold symbolTableLoadV symTabNumEntries
    rw [if_pos rfl, if_neg (by omega)]

/-- Witness for the amended C4 theorem at concrete inputs. -/
theorem C4_symtab_never_invalid_amended_witness :
    (loadSymbolTablesAll [] false false []).1 ≠ JSRes.invalidELF ∧
    symbolTableLoadV [] false false 0 4 0 = .diverges :=
  ⟨C4_symtab_never_invalid_amended.1 [] false false [],
   C4_symtab_never_invalid_amended.2 [] false false 0 4 (by decide)⟩

/-- Claim C10 counterexample: a 64-byte all-zero buffer with a symbol-table
section declaring offset 0, size 10, entry size 4 — the load terminates and
constructs 3 entries (the `i < 10/4 = 2.5` loop runs for i = 0, 1, 2), not
`floor(10/4) = 2`. -/
theorem C10_symtab_count_not_floor_cex :
    symTabOutLength (symbolTableLoadV (List.replicate 64 0) false false 0 10 4) = 3 ∧
    (10 : Nat) / 4 = 2 ∧
    symbolTableLoadV (List.replicate 64 0) false false 0 10 4 ≠ .diverges := by
  refine ⟨by decide, by decide, by decide⟩

/-- Claim C10 (amended): with a positive entry size `ELFSymbolTable.load`
terminates and constructs exactly `⌈Sh_Size / Sh_Entsize⌉` entries whenever
its entry reads stay in bounds (entry count `(size + entsize - 1) / entsize`,
the exact-quotient loop bound, not the floor); with entry size 0 and a
positive size the load loop does not terminate. -/
theorem C10_symtab_termination_amended :
    (∀ (buf : List Nat) (le is64 : Bool) (off size entsize : Nat),
      0 < entsize →
      symbolTableLoadV buf le is64 off size entsize ≠ .diverges ∧
      ∀ l, symbolTableLoadV buf le is64 off size entsize = .ok l →
        l.length = (size + entsize - 1) / entsize) ∧
    (∀ (buf : List Nat) (le is64 : Bool) (off size : Nat), 0 < size →
      symbolTableLoadV buf le is64 off size 0 = .diverges) := by
  constructor
  · intro buf le is64 off size entsize h
    constructor
    · unfold symbolTableLoadV symTabNumEntries
      rw [if_neg (by omega)]
      cases hls : loadSeq (fun i => symEntryLoad buf le is64 (off + i * entsize)) 0
          ((size + entsize - 1) / entsize) <;> simp [hls]
    · intro l hl
      unfold symbolTableLoadV symTabNumEntries at hl
      rw [if_neg (by omega)] at hl
      cases hls : loadSeq (fun i => symEntryLoad buf le is64 (off + i * entsize)) 0
          ((size + entsize - 1) / entsize) with
      | none => simp [hls] at hl
      | some es =>
          simp [hls] at hl
          rw [← hl]
          exact loadSeq_length _ _ _ _ hls
  · intro buf le is64 off size h
    unfold symbolTableLoadV symTabNumEntries
    rw [if_pos rfl, if_neg (by omega)]

/-- Witness for the amended C10 theorem at concrete inputs: entry size 4
and size 10 give 3 entries; entry size 0 and size 10 diverge. -/
theorem C10_symtab_termination_amended_witness :
    ((List.replicate 64 0 : List Nat) = List.replicate 64 0 ∧
      symbolTableLoadV (List.replicate 64 0) false false 0 10 0 = .diverges) ∧
    symbolTableLoadV (List.replicate 64 0) false false 0 10 4 ≠ .diverges :=
  ⟨⟨rfl, C10_symtab_termination_amended.2 (List.replicate 64 0) false false 0 10 (by decide)⟩,
   (C10_symtab_termination_amended.1 (List.replicate 64 0) false false 0 10 4 (by decide)).1⟩

/-- `ELFFileLoadResult`. -/
inductive ELFFileLoadResult where
  | OK
  | INVALID_ELF
deriving DecidableEq, Repr

/-- The ELF header: every element `ELFHeader.load` reads, in source order. -/
structure ELFHeader where
  eIdentMag : ELFElement
  eIdentClass : ELFElement
  eIdentData : ELFElement
  eIdentVersion : ELFElement
  eIdentOsAbi : ELFElement
  eIdentOsAbiVer : ELFElement
  eType : ELFElement
  eMachine : ELFElement
  eVersion : ELFElement
  eEntry : ELFElement
  ePhOff : ELFElement
  eShOff : ELFElement
  eFlags : ELFElement
  eEhsize : ELFElement
  ePhentsize : ELFElement
  ePhnum : ELFElement
  eShentsize : ELFElement
  eShnum : ELFElement
  eShstrndx : ELFElement
deriving DecidableEq, Repr

/-- `isELF64`: the identification class byte equals 2. -/
def ELFHeader.is64 (h : ELFHeader) : Bool := h.eIdentClass.value == 2

/-- The file access's little-endian flag after the header set it:
`E_ident_data == 1`. -/
def headerLE (h : ELFHeader) : Bool := h.eIdentData.value == 1

/-- The reads of `ELFHeader.load` (once the 52-byte minimum holds): the
identification block is read with the initial big-endian flag until the
data-encoding byte switches it; entry point and the table offsets are
8-byte for ELF64 and 4-byte for ELF32, the remaining fields 2- or 4-byte at
the layout offsets that follow.  `none` models a thrown out-of-bounds read
(possible only for ELF64 buffers shorter than 64 bytes). -/
def elfHeaderCore (buf : List Nat) : Option ELFHeader :=
  match elfElementLoad buf false 0 4, elfElementLoad buf false 4 1,
        elfElementLoad buf false 5 1 with
  | some mag, some cls, some dat =>
      let le := dat.value == 1
      let is64 := cls.value == 2
      let base := if is64 then 48 else 36
      match elfElementLoad buf le 6 1, elfElementLoad buf le 7 1,
            elfElementLoad buf le 8 1, elfElementLoad buf le 16 2,
            elfElementLoad buf le 18 2, elfElementLoad buf le 20 4,
            elfElementLoad buf le 24 (if is64 then 8 else 4),
            elfElementLoad buf le (if is64 then 32 else 28) (if is64 then 8 else 4),
            elfElementLoad buf le (if is64 then 40 else 32) (if is64 then 8 else 4),
            elfElementLoad buf le base 4, elfElementLoad buf le (base + 4) 2,
            elfElementLoad buf le (base + 6) 2, elfElementLoad buf le (base + 8) 2,
            elfElementLoad buf le (base + 10) 2, elfElementLoad buf le (base + 12) 2,
            elfElementLoad buf le (base + 14) 2 with
      | some ver, some osabi, some osabiver, some ty, some mac, some ver2,
        some ent, some phoff, some shoff, some flags, some ehsize,
        some phentsize, some phnum, some shentsize, some shnum, some shstrndx =>
          some ⟨mag, cls, dat, ver, osabi, osabiver, ty, mac, ver2, ent,
                phoff, shoff, flags, ehsize, phentsize, phnum, shentsize,
                shnum, shstrndx⟩
      | _, _, _, _, _, _, _, _, _, _, _, _, _, _, _, _ => none
  | _, _, _ => none

/-- `ELFHeader.load`: `INVALID_ELF` for buffers shorter than 52 bytes,
otherwise the element reads (throwing when one leaves the buffer). -/
def elfHeaderLoad (buf : List Nat) : JSRes ELFHeader :=
  if buf.length < 52 then .invalidELF
  else
    match elfHeaderCore buf with
    | some h => .ok h
    | none => .throws

/-- One program-header table entry. -/
structure PHEntry where
  pType : ELFElement
  pFlags : ELFElement
  pOffset : ELFElement
  pVAddr : ELFElement
  pPAddr : ELFElement
  pFileSz : ELFElement
  pMemSz : ELFElement
  pAlign : ELFElement
deriving DecidableEq, Repr

/-- `ELFProgramHeaderTable.load(startAddress)`: the ELF64 layout reads
type, flags, then six 8-byte fields; the ELF32 layout reads type, five
4-byte fields, flags, align. -/
def phEntryLoad (buf : List Nat) (le : Bool) (is64 : Bool) (s : Nat) :
    Option PHEntry :=
  if is64 then
    match elfElementLoad buf le s 4, elfElementLoad buf le (s + 4) 4,
          elfElementLoad buf le (s + 8) 8, elfElementLoad buf le (s + 16) 8,
          elfElementLoad buf le (s + 24) 8, elfElementLoad buf le (s + 32) 8,
          elfElementLoad buf le (s + 40) 8, elfElementLoad buf le (s + 48) 8 with
    | some ty, some fl, some off, some va, some pa, some fsz, some msz, some al =>
        some ⟨ty, fl, off, va, pa, fsz, msz, al⟩
    | _, _, _, _, _, _, _, _ => none
  else
    match elfElementLoad buf le s 4, elfElementLoad buf le (s + 4) 4,
          elfElementLoad buf le (s + 8) 4, elfElementLoad buf le (s + 12) 4,
          elfElementLoad buf le (s + 16) 4, elfElementLoad buf le (s + 20) 4,
          elfElementLoad buf le (s + 24) 4, elfElementLoad buf le (s + 28) 4 with
    | some ty, some off, some va, some pa, some fsz, some msz, some fl, some al =>
        some ⟨ty, fl, off, va, pa, fsz, msz, al⟩
    | _, _, _, _, _, _, _, _ => none

/-- `ELFFile.loadProgramHeaderTables`: `INVALID_ELF` when the offset is
(loose-equality) zero in both halves or when
`E_PhOff + E_Phnum * E_Phentsize` exceeds the buffer length; otherwise load
`E_Phnum` entries at stride `E_Phentsize`.  (`value2` of a 4-byte offset
element is `undefined`, and JS `undefined == 0` is false, so the zero test
can only fire for 8-byte offsets.) -/
def loadProgramHeaderTables (buf : List Nat) (h : ELFHeader) :
    JSRes (List PHEntry) :=
  let le := headerLE h
  if (h.ePhOff.value = 0 ∧ looseEqZero h.ePhOff.value2 = true) ∨
      buf.length < h.ePhOff.get32 le + h.ePhnum.get32 le * h.ePhentsize.get32 le then
    .invalidELF
  else
    match loadSeq (fun i => phEntryLoad buf le h.is64
        (h.ePhOff.get32 le + i * h.ePhentsize.get32 le)) 0 (h.ePhnum.get32 le) with
    | some es => .ok es
    | none => .throws

/-- `ELFFile.loadSectionHeaderTables`: the same shape with the section
header offset, count, and entry size. -/
def loadSectionHeaderTables (buf : List Nat) (h : ELFHeader) :
    JSRes (List SectionHeader) :=
  let le := headerLE h
  if (h.eShOff.value = 0 ∧ looseEqZero h.eShOff.value2 = true) ∨
      buf.length < h.eShOff.get32 le + h.eShnum.get32 le * h.eShentsize.get32 le then
    .invalidELF
  else
    match loadSeq (fun i => secEntryLoad buf le h.is64
        (h.eShOff.get32 le + i * h.eShentsize.get32 le)) 0 (h.eShnum.get32 le) with
    | some es => .ok es
    | none => .throws

/-- One note-table entry: the size/type elements, the name bytes and the
description bytes. -/
structure NoteEntry where
  namesz : ELFElement
  descsz : ELFElement
  ty : ELFElement
  name : List Nat
  desc : List Nat
deriving DecidableEq, Repr

/-- Bytes of padding to the next 4-byte boundary. -/
def pad4 (n : Nat) : Nat := (4 - n % 4) % 4

/-- Outcome of the description-byte loop of one note record. -/
inductive DescOut where
  | done
  | invalid
  | thrown
deriving DecidableEq, Repr

/-- The description loop of `ELFNoteTable.load`: read `count` bytes from
`cur`; a position strictly past the buffer end latches `INVALID_ELF` and
breaks, while a read exactly at the end (permitted by the source's
`curOff > byteLength` check) throws.  Returns the bytes read, the final
offset and the outcome. -/
def noteDescLoop (buf : List Nat) : Nat → Nat → List Nat × Nat × DescOut
  | cur, 0 => ([], cur, .done)
  | cur, n + 1 =>
      if buf.length < cur then ([], cur, .invalid)
      else
        match buf.get? cur with
        | none => ([], cur, .thrown)
        | some b =>
            let r := noteDescLoop buf (cur + 1) n
            (b :: r.1, r.2.1, r.2.2)

/-- The record loop of `ELFNoteTable.load`: while a full 0x18-byte record
header fits before `endO`, read `namesz`/`descsz`/`type`; a name that would
leave the buffer returns `INVALID_ELF` immediately; description bytes that
leave the buffer latch `INVALID_ELF` but the loop continues; name and
description advances are padded to 4 bytes.  On loop exit the latched
result (or `OK`) is returned. -/
def noteLoadLoop (buf : List Nat) (le : Bool) (endO : Nat) (curOff : Nat)
    (latched : Bool) (acc : List NoteEntry) : JSRes (List NoteEntry) :=
  if hfit : curOff + 24 ≤ endO then
    match elfElementLoad buf le curOff 4, elfElementLoad buf le (curOff + 4) 4,
          elfElementLoad buf le (curOff + 8) 4 with
    | some nszE, some dszE, some tyE =>
        let ns := nszE.get32 le
        let ds := dszE.get32 le
        if 0 < ns ∧ buf.length < curOff + 12 + ns then .invalidELF
        else
          let nameBytes := if 0 < ns then readByteString buf (curOff + 12) ns else []
          let nameAdv := if 0 < ns then ns + pad4 ns else 0
          let dres := if 0 < ds then noteDescLoop buf (curOff + 12 + nameAdv) ds
                      else ([], curOff + 12 + nameAdv, .done)
          match dres.2.2 with
          | .thrown => .throws
          | dOut =>
              noteLoadLoop buf le endO
                (curOff + 12 + nameAdv +
                  ((dres.2.1 - (curOff + 12 + nameAdv)) + (if 0 < ds then pad4 ds else 0)))
                (latched || decide (dOut = .invalid))
                (acc ++ [⟨nszE, dszE, tyE, nameBytes, dres.1⟩])
    | _, _, _ => .throws
  else if latched then .invalidELF else .ok acc
termination_by endO - curOff
decreasing_by
  omega

/-- `ELFFile.loadNoteTables`: run the record loop over every section of
type `SHT_NOTE` (7), in order, stopping at the first failing table. -/
def loadNoteTables (buf : List Nat) (le : Bool) :
    List SectionHeader → JSRes Unit
  | [] => .ok ()
  | sec :: rest =>
      if sec.shType.get32 le == 7 then
        match noteLoadLoop buf le (sec.shOffset.get32 le + sec.shSize.get32 le)
            (sec.shOffset.get32 le) false [] with
        | .ok _ => loadNoteTables buf le rest
        | .invalidELF => .invalidELF
        | .throws => .throws
        | .diverges => .diverges
      else loadNoteTables buf le rest

/-- The object state `ELFFile.load` leaves behind: the header (absent when
even the 52-byte check failed), the section-header tables, and the loaded
symbol tables, each paired with its section. -/
structure ELFImage where
  header : Option ELFHeader
  sections : List SectionHeader
  symTabs : List (SectionHeader × List SymEntry)
deriving DecidableEq, Repr

/-- Outcome of `ELFFile.load`: the returned result together with the final
object state, or a thrown exception, or divergence. -/
inductive ElfLoadOut where
  | ok (img : ELFImage) (r : ELFFileLoadResult)
  | throws
  | diverges
deriving DecidableEq, Repr

/-- `ELFFile.load`: header, then program headers, then section headers,
then symbol tables, then note tables, each stage gated on the previous
returning `OK`; the first `INVALID_ELF` is returned with whatever state was
built so far. -/
def elfLoadOut (buf : List Nat) : ElfLoadOut :=
  match elfHeaderLoad buf with
  | .throws => .throws
  | .diverges => .diverges
  | .invalidELF => .ok ⟨none, [], []⟩ .INVALID_ELF
  | .ok h =>
      match loadProgramHeaderTables buf h with
      | .throws => .throws
      | .diverges => .diverges
      | .invalidELF => .ok ⟨some h, [], []⟩ .INVALID_ELF
      | .ok _ =>
          match loadSectionHeaderTables buf h with
          | .throws => .throws
          | .diverges => .diverges
          | .invalidELF => .ok ⟨some h, [], []⟩ .INVALID_ELF
          | .ok secs =>
              match loadSymbolTablesAll buf (headerLE h) h.is64 secs with
              | (.throws, _) => .throws
              | (.diverges, _) => .diverges
              | (.invalidELF, _) => .ok ⟨some h, secs, []⟩ .INVALID_ELF
              | (.ok _, tabs) =>
                  match loadNoteTables buf (headerLE h) secs with
                  | .throws => .throws
                  | .diverges => .diverges
                  | .invalidELF => .ok ⟨some h, secs, tabs⟩ .INVALID_ELF
                  | .ok _ => .ok ⟨some h, secs, tabs⟩ .OK

/-- The value `ELFFile.load` returns (or its thrown/diverging outcome). -/
def elfLoadResult (buf : List Nat) : JSRes ELFFileLoadResult :=
  match elfLoadOut buf with
  | .ok _ r => .ok r
  | .throws => .throws
  | .diverges => .diverges

/-- The image's program-header offset, read directly at its layout offset
(8-byte at 32 for ELF64, 4-byte at 28 for ELF32, with the endianness given
by the data-encoding byte); defined whenever those bytes exist, even when
a later header read would throw. -/
def imagePhOff (buf : List Nat) : Option Nat :=
  match getUint8 buf 4, getUint8 buf 5 with
  | some cls, some dat =>
      match elfElementLoad buf (dat == 1) (if cls == 2 then 32 else 28)
          (if cls == 2 then 8 else 4) with
      | some e => some (e.get32 (dat == 1))
      | none => none
  | _, _ => none

/-- The image's program-header entry count (2-byte at 56 for ELF64, 44 for
ELF32). -/
def imagePhNum (buf : List Nat) : Option Nat :=
  match getUint8 buf 4, getUint8 buf 5 with
  | some cls, some dat =>
      match elfElementLoad buf (dat == 1) (if cls == 2 then 56 else 44) 2 with
      | some e => some (e.get32 (dat == 1))
      | none => none
  | _, _ => none

/-- The image's program-header entry size (2-byte at 54 for ELF64, 42 for
ELF32). -/
def imagePhEntsize (buf : List Nat) : Option Nat :=
  match getUint8 buf 4, getUint8 buf 5 with
  | some cls, some dat =>
      match elfElementLoad buf (dat == 1) (if cls == 2 then 54 else 42) 2 with
      | some e => some (e.get32 (dat == 1))
      | none => none
  | _, _ => none

/-- A 63-byte big-endian ELF64 image (class byte 2) whose program-header
offset is 256: its bound check fails, but the header read of `E_Shstrndx`
at offset 62 already leaves the buffer. -/
def buf63 : List Nat :=
  (List.range 63).map (fun i => if i = 4 then 2 else if i = 38 then 1 else 0)

/-- A 52-byte big-endian ELF32 image declaring one program-header entry of
size 65535: the program-header bound check fails, yielding `INVALID_ELF`
before any section or symbol table is loaded. -/
def buf52 : List Nat :=
  (List.range 52).map
    (fun i => if i = 42 then 255 else if i = 43 then 255 else if i = 45 then 1 else 0)

/-- Claim C3 counterexample: `buf63`'s program-header offset (256) plus
`phnum * phentsize` (0) exceeds its length (63), yet `ELFFile.load` does
not return `INVALID_ELF` — the ELF64 header reads past byte 62 throw a
RangeError instead. -/
theorem C3_bounds_elf64_throws_cex :
    imagePhOff buf63 = some 256 ∧ imagePhNum buf63 = some 0 ∧
    imagePhEntsize buf63 = some 0 ∧
    buf63.length < 256 + 0 * 0 ∧
    elfLoadResult buf63 = .throws ∧
    elfLoadResult buf63 ≠ .ok .INVALID_ELF := by
  refine ⟨by decide, by decide, by decide, by decide, by decide, by decide⟩

/-- Claim C3 (amended): whenever the ELF header itself parses (all its
reads are inside the buffer — always the case for an ELF32 image at least
52 bytes long) and the program-header offset plus `phnum * phentsize`
exceeds the buffer length, `ELFFile.load` returns `INVALID_ELF`; a buffer
shorter than 52 bytes returns `INVALID_ELF` outright.  (When the header
reads themselves leave the buffer — an ELF64 image shorter than 64 bytes —
load throws instead, as the counterexample shows.) -/
theorem C3_ph_bounds_invalid_amended :
    (∀ (buf : List Nat) (h : ELFHeader), elfHeaderLoad buf = .ok h →
      buf.length < h.ePhOff.get32 (headerLE h) +
        h.ePhnum.get32 (headerLE h) * h.ePhentsize.get32 (headerLE h) →
      elfLoadResult buf = .ok .INVALID_ELF) ∧
    (∀ buf : List Nat, buf.length < 52 →
      elfLoadResult buf = .ok .INVALID_ELF) := by
  constructor
  · intro buf h hok hb
    have hph : loadProgramHeaderTables buf h = .invalidELF := by
      unfold loadProgramHeaderTables
      exact if_pos (Or.inr hb)
    unfold elfLoadResult elfLoadOut
    simp only [hok, hph]
  · intro buf hlen
    have hh : elfHeaderLoad buf = .invalidELF := by
      unfold elfHeaderLoad
      exact if_pos hlen
    unfold elfLoadResult elfLoadOut
    simp only [hh]

/-- The header of `buf52` as loaded (big-endian ELF32, `E_Phentsize`
65535, `E_Phnum` 1, all other values 0). -/
def h52 : ELFHeader :=
  ⟨⟨0, 0, none, 4⟩, ⟨4, 0, none, 1⟩, ⟨5, 0, none, 1⟩, ⟨6, 0, none, 1⟩,
   ⟨7, 0, none, 1⟩, ⟨8, 0, none, 1⟩, ⟨16, 0, none, 2⟩, ⟨18, 0, none, 2⟩,
   ⟨20, 0, none, 4⟩, ⟨24, 0, none, 4⟩, ⟨28, 0, none, 4⟩, ⟨32, 0, none, 4⟩,
   ⟨36, 0, none, 4⟩, ⟨40, 0, none, 2⟩, ⟨42, 65535, none, 2⟩, ⟨44, 1, none, 2⟩,
   ⟨46, 0, none, 2⟩, ⟨48, 0, none, 2⟩, ⟨50, 0, none, 2⟩⟩

/-- Witness for the amended C3 theorem: `buf52`'s header parses, its
program-header bound `0 + 1 * 65535` exceeds 52, and load returns
`INVALID_ELF`. -/
theorem C3_ph_bounds_invalid_amended_witness :
    elfLoadResult buf52 = .ok .INVALID_ELF :=
  C3_ph_bounds_invalid_amended.1 buf52 h52 (by decide) (by decide)

/-! ## processElfFile / start / evaluate (runtime.ts) -/

/-- A cached debug symbol of the runtime: name, address
(`St_value.Get32BitValue()`), length (`St_size.value`). -/
structure MDBDebugSymbol where
  name : List Char
  address : Nat
  length : Nat
deriving DecidableEq, Repr

/-- `getDescription_StName`: resolve the entry's name through the string
table named by the symbol section's `Sh_Link`, guarded by the section
count; empty for name index 0 or an out-of-range link. -/
def stNameString (buf : List Nat) (le : Bool) (h : ELFHeader)
    (secs : List SectionHeader) (symSec : SectionHeader) (e : SymEntry) :
    List Char :=
  if e.stName.get32 le ≠ 0 then
    if symSec.shLink.get32 le < h.eShnum.get32 le then
      match secs.get? (symSec.shLink.get32 le) with
      | some strSec =>
          (readByteString buf (strSec.shOffset.get32 le + e.stName.get32 le)
            (strSec.shOffset.get32 le + strSec.shSize.get32 le -
              (strSec.shOffset.get32 le + e.stName.get32 le))).map
            (fun b => Char.ofNat b)
      | none => []
    else []
  else []

/-- JS object property assignment `this._symbols[name] = ...`: replace in
place or append. -/
def symUpsert : List (List Char × MDBDebugSymbol) → List Char →
    MDBDebugSymbol → List (List Char × MDBDebugSymbol)
  | [], k, v => [(k, v)]
  | (k', v') :: rest, k, v =>
      if k' = k then (k', v) :: rest else (k', v') :: symUpsert rest k v

/-- Build the `_symbols` map from the entries of the first symbol table. -/
def buildSymbols (buf : List Nat) (le : Bool) (h : ELFHeader)
    (secs : List SectionHeader) (symSec : SectionHeader)
    (entries : List SymEntry) : List (List Char × MDBDebugSymbol) :=
  entries.foldl
    (fun acc e =>
      symUpsert acc (stNameString buf le h secs symSec e)
        ⟨stNameString buf le h secs symSec e, e.stValue.get32 le, e.stSize.value⟩)
    []

/-- `processElfFile`: run `ELFFile.load`, ignore its result, and read
`elfFile.elfSymbolTables[0].symTabEntries` — when no symbol table was
loaded, `elfSymbolTables[0]` is `undefined` and the property access throws
a TypeError, so `processElfFile` rejects. -/
def processElfFile (buf : List Nat) :
    JSRes (List (List Char × MDBDebugSymbol)) :=
  match elfLoadOut buf with
  | .throws => .throws
  | .diverges => .diverges
  | .ok img _ =>
      match img.symTabs with
      | [] => .throws
      | (symSec, entries) :: _ =>
          match img.header with
          | some h => .ok (buildSymbols buf (headerLE h) h img.sections symSec entries)
          | none => .throws

/-- The ELF phase of `start`: `start` awaits `processElfFile(program)`
before issuing the Device/Hwtool/Program commands, so a rejected
`processElfFile` rejects `start` itself. -/
def startRun (buf : List Nat) : JSRes Unit :=
  match processElfFile buf with
  | .ok _ => .ok ()
  | .invalidELF => .invalidELF
  | .throws => .throws
  | .diverges => .diverges

/-- Lookup of `this._symbols[expression]`. -/
def symLookup : List (List Char × MDBDebugSymbol) → List Char →
    Option MDBDebugSymbol
  | [], _ => none
  | (k, v) :: rest, e => if k = e then some v else symLookup rest e

/-- The first command `evaluate(expression)` submits: with no cached symbol
it falls back to the direct address-of query `Print /a <expression>`;
with a cached symbol it submits `Print <expression>`. -/
def evaluateFirstCmd (symbols : List (List Char × MDBDebugSymbol))
    (expr : List Char) : List Char :=
  match symLookup symbols expr with
  | none => "Print /a ".toList ++ expr
  | some _ => "Print ".toList ++ expr

/-- Claim C7 counterexample: for `buf52`, ELF parsing fails with
`INVALID_ELF` (a structural bounds violation in the program-header table),
no symbol table is built, and `start` FAILS — `processElfFile` throws on
`elfSymbolTables[0]` — contradicting the claim that the session still runs
without symbol resolution. -/
theorem C7_invalid_elf_start_throws_cex :
    elfLoadResult buf52 = .ok .INVALID_ELF ∧
    processElfFile buf52 = .throws ∧
    startRun buf52 = .throws := by
  refine ⟨by decide, by decide, by decide⟩

/-- Claim C7 (amended): when `ELFFile.load` leaves no symbol table behind —
as after any bounds violation at or before the section-header stage —
`processElfFile` throws on the unguarded `elfSymbolTables[0]` access and
`start` fails; `evaluate` itself does degrade to a direct address-of query
(`Print /a <expr>`) for any expression without a cached symbol. -/
theorem C7_elf_failure_behavior_amended :
    (∀ (buf : List Nat) (img : ELFImage) (r : ELFFileLoadResult),
      elfLoadOut buf = .ok img r → img.symTabs = [] →
      processElfFile buf = .throws ∧ startRun buf = .throws) ∧
    (∀ (syms : List (List Char × MDBDebugSymbol)) (expr : List Char),
      symLookup syms expr = none →
      evaluateFirstCmd syms expr = "Print /a ".toList ++ expr) := by
  constructor
  · intro buf img r hload hsym
    have hp : processElfFile buf = .throws := by
      unfold processElfFile
      simp only [hload, hsym]
    exact ⟨hp, by unfold startRun; simp only [hp]⟩
  · intro syms expr hlook
    unfold evaluateFirstCmd
    rw [hlook]

/-- Witness for the amended C7 theorem: its first part applied to `buf52`
(whose load state has no symbol tables), its second to an empty symbol
map. -/
theorem C7_elf_failure_behavior_amended_witness :
    (processElfFile buf52 = .throws ∧ startRun buf52 = .throws) ∧
    evaluateFirstCmd [] ['P', 'C'] = "Print /a ".toList ++ ['P', 'C'] :=
  ⟨C7_elf_failure_behavior_amended.1 buf52 ⟨some h52, [], []⟩ .INVALID_ELF
      (by decide) rfl,
   C7_elf_failure_behavior_amended.2 [] ['P', 'C'] rfl⟩
